import Mathlib

/-!
Shallow embedding of the Maven/Java build-log analyzer
(`src/ddd-backend/script/analyze.py`, with `log_analyzer.py` sharing the same
scanner logic).  Python strings are modelled as `List Char`, raw file bytes as
`List Nat`.  Each definition mirrors one function or code fragment of the
source; theorems at the end of the file settle the specification claims.
-/

namespace LogAnalyzer

/-- Characters treated as whitespace by Python `str.strip`/`str.rstrip` and by
the regex class `\s` (ASCII range, which is all that build logs contain). -/
def isPySpace (c : Char) : Bool :=
  c == ' ' || c == '\t' || c == '\n' || c == '\r' || c == '\x0b' || c == '\x0c'

/-- Python `line.rstrip()`. -/
def rstrip (l : List Char) : List Char :=
  (l.reverse.dropWhile isPySpace).reverse

/-- Python `not line.strip()`: the line is empty or whitespace-only. -/
def isBlank (l : List Char) : Bool :=
  l.all isPySpace

/-- Python `pat in s` (substring containment; also how `re.search` behaves on a
pattern that is a plain literal such as `\[ERROR\]`). -/
def containsSub (pat l : List Char) : Bool :=
  l.tails.any (fun t => pat.isPrefixOf t)

/-- Match of the regex fragment `Test.*FAILED` somewhere in the line: an
occurrence of `Test` followed, with no intervening newline (`.` does not match
`\n`), by `FAILED`. -/
def testFailedMatch : List Char → Bool
  | [] => false
  | c :: cs =>
    (("Test".toList).isPrefixOf (c :: cs) &&
      containsSub ("FAILED".toList) (((c :: cs).drop 4).takeWhile (fun d => d != '\n'))) ||
    testFailedMatch cs

/-- `ERROR_PATTERNS['maven_error'] = re.compile(r'\[ERROR\]')`, used via
`.search`: containment of the literal `[ERROR]`. -/
def mavenErrorMatch (l : List Char) : Bool :=
  containsSub ("[ERROR]".toList) l

/-- `ERROR_PATTERNS['failure'] = re.compile(r'FAILURE|BUILD FAILURE|Test.*FAILED')`,
used via `.search`. -/
def failureMatch (l : List Char) : Bool :=
  containsSub ("FAILURE".toList) l || containsSub ("BUILD FAILURE".toList) l ||
    testFailedMatch l

/-- `CAUSED_BY_PATTERN = re.compile(r'^Caused by:')`, used via `.search`;
without `re.MULTILINE` the anchor `^` only matches at the start of the string. -/
def causedByMatch (l : List Char) : Bool :=
  ("Caused by:".toList).isPrefixOf l

/-- Regex class `[\w\.$]` (ASCII word characters, dot, dollar). -/
def isWordChar (c : Char) : Bool :=
  c.isAlphanum || c == '_' || c == '.' || c == '$'

/-- `STACK_TRACE_PATTERN = re.compile(r'^\s+at\s+[\w\.$]+')`, used via `.search`:
leading whitespace, literal `at`, whitespace, then a word/dot/dollar character.
Greedy `\s+` is equivalent to maximal munch here because `at` starts with a
non-space character. -/
def stackTraceMatch (l : List Char) : Bool :=
  let sp := l.takeWhile isPySpace
  let r1 := l.dropWhile isPySpace
  !sp.isEmpty && ("at".toList).isPrefixOf r1 &&
    (let r2 := r1.drop 2
     let sp2 := r2.takeWhile isPySpace
     let r3 := r2.dropWhile isPySpace
     !sp2.isEmpty &&
       (match r3 with
        | [] => false
        | c :: _ => isWordChar c))

/-- `LogAnalyzer._identify_error_type`: fixed-priority if/elif chain over the
three patterns; returns the empty string when no rule matches. -/
def identifyErrorType (l : List Char) : List Char :=
  if mavenErrorMatch l then "ERROR".toList
  else if failureMatch l then "FAILURE".toList
  else if causedByMatch l then "EXCEPTION".toList
  else []

/-- The `ErrorEntry` dataclass. -/
structure ErrorEntry where
  line_number : Nat
  error_type : List Char
  content : List Char
  context_lines : List (List Char)
  stack_trace : List (List Char)
  deriving DecidableEq, Repr

/-- Body of the `for i in range(start_idx + 1, min(start_idx + 1 + self.context_lines,
len(lines)))` loop of `LogAnalyzer._extract_context`.  `fuel` is the number of
loop iterations still allowed by the window (`context_lines` initially); `i` is
the current absolute index.  Each iteration appends the rstripped line to the
context (and to the stack trace when it matches a frame/cause pattern), then
breaks on a blank line, or on a line that classifies as a new error provided
`i > start_idx + 1`. -/
def extractContextAux (lines : List (List Char)) (startIdx : Nat) :
    Nat → Nat → List (List Char) × List (List Char)
  | _, 0 => ([], [])
  | i, fuel + 1 =>
    if i < lines.length then
      let line := rstrip (lines.getD i [])
      let st : List (List Char) :=
        if stackTraceMatch line || causedByMatch line then [line] else []
      if isBlank line then ([line], st)
      else if identifyErrorType line ≠ [] ∧ startIdx + 1 < i then ([line], st)
      else
        let rest := extractContextAux lines startIdx (i + 1) fuel
        (line :: rest.1, st ++ rest.2)
    else ([], [])

/-- `LogAnalyzer._extract_context`: scan starts right after the trigger line. -/
def extractContext (ctx : Nat) (lines : List (List Char)) (startIdx : Nat) :
    List (List Char) × List (List Char) :=
  extractContextAux lines startIdx (startIdx + 1) ctx

/-- The `while i < len(lines) and len(self.errors) < self.max_errors` loop of
`LogAnalyzer.analyze`.  `fuel` bounds the number of loop iterations; because the
cursor `i` strictly increases each iteration, starting with
`fuel = lines.length` makes the fuel-free exit (`i ≥ lines.length`) and the
fuel exhaustion coincide, so this is extensionally the Python loop. -/
def analyzeAux (maxE ctx : Nat) (lines : List (List Char)) :
    Nat → Nat → List ErrorEntry → List ErrorEntry
  | 0, _, errs => errs
  | fuel + 1, i, errs =>
    if i < lines.length ∧ errs.length < maxE then
      let line := lines.getD i []
      if identifyErrorType line ≠ [] then
        let cs := extractContext ctx lines i
        let e : ErrorEntry :=
          ⟨i + 1, identifyErrorType line, rstrip line, cs.1, cs.2⟩
        analyzeAux maxE ctx lines fuel (i + cs.1.length + 1) (errs ++ [e])
      else
        analyzeAux maxE ctx lines fuel (i + 1) errs
    else errs

/-- `LogAnalyzer.analyze` on an already-read line list, starting from an empty
accumulator (a fresh instance has `self.errors = []`). -/
def analyze (maxE ctx : Nat) (lines : List (List Char)) : List ErrorEntry :=
  analyzeAux maxE ctx lines lines.length 0 []

/-! ## Grep mode (`LogAnalyzer.grep_search`)

The model tracks the Python `matched_ranges` set as a list `marked` and the
sequence of printed source-line indices as `printed`; the decorative header
lines are not source lines and are not tracked. -/

/-- One of the `for j in range(_, _)` context-printing loops: `fuel` counts the
remaining indices of the range, `j` is the current index.  Unmarked indices are
printed and marked; marked ones are skipped (`if j not in matched_ranges`). -/
def printRangeAux : Nat → Nat → List Nat → List Nat → List Nat × List Nat
  | 0, _, marked, printed => (marked, printed)
  | n + 1, j, marked, printed =>
    if j ∈ marked then printRangeAux n (j + 1) marked printed
    else printRangeAux n (j + 1) (marked ++ [j]) (printed ++ [j])

/-- `for j in range(lo, hi)` over the printing body. -/
def printRange (lo hi : Nat) (marked printed : List Nat) : List Nat × List Nat :=
  printRangeAux (hi - lo) lo marked printed

/-- The `while i < total_lines and matches_found < max_matches` loop of
`grep_search`.  As in `analyzeAux`, `fuel` bounds iterations and the cursor
strictly increases, so `fuel = lines.length` reproduces the Python loop.  On a
fresh match the code prints the lines `[i - ctx, i)` (skipping marked ones),
then the match line `i` itself, then `(i, min total (i + ctx + 1))`, and resumes
the scan at the end of the printed window. -/
def grepLoopAux (ctx maxM : Nat) (kw : List Char) (lines : List (List Char)) :
    Nat → Nat → Nat → List Nat → List Nat → List Nat
  | 0, _, _, _, printed => printed
  | fuel + 1, i, found, marked, printed =>
    if i < lines.length ∧ found < maxM then
      if containsSub kw (lines.getD i []) ∧ i ∉ marked then
        let start := i - ctx
        let stop := min lines.length (i + ctx + 1)
        let mp1 := printRange start i marked printed
        let m2 := mp1.1 ++ [i]
        let p2 := mp1.2 ++ [i]
        let mp3 := printRange (i + 1) stop m2 p2
        grepLoopAux ctx maxM kw lines fuel stop (found + 1) mp3.1 mp3.2
      else
        grepLoopAux ctx maxM kw lines fuel (i + 1) found marked printed
    else printed

/-- `LogAnalyzer.grep_search`, reduced to the sequence of printed source-line
indices. -/
def grepSearch (ctx maxM : Nat) (kw : List Char) (lines : List (List Char)) :
    List Nat :=
  grepLoopAux ctx maxM kw lines lines.length 0 0 [] []

/-! ## Line reading (`LogAnalyzer.read_lines`) -/

/-- `raw_data.replace(b'\r\n', b'\n')`: left-to-right non-overlapping
replacement of the byte pair CRLF (13, 10) by LF (10). -/
def replaceCRLF : List Nat → List Nat
  | [] => []
  | [b] => [b]
  | b :: c :: rest =>
    if b = 13 ∧ c = 10 then 10 :: replaceCRLF rest
    else b :: replaceCRLF (c :: rest)

/-- `.replace(b'\r', b'\n')`: every remaining bare CR becomes LF. -/
def replaceCR (l : List Nat) : List Nat :=
  l.map (fun b => if b = 13 then 10 else b)

/-- The two-step line-ending normalization of `read_lines`. -/
def normalizeBytes (raw : List Nat) : List Nat :=
  replaceCR (replaceCRLF raw)

/-- Python `text.split('\n')` (always returns at least one element). -/
def splitNl : List Char → List (List Char)
  | [] => [[]]
  | c :: cs =>
    if c = '\n' then [] :: splitNl cs
    else
      match splitNl cs with
      | [] => [[c]]
      | t :: ts => (c :: t) :: ts

/-- `if lines and lines[-1] == '': lines = lines[:-1]` — drop the single
trailing empty element produced by a trailing newline. -/
def dropTrailingEmpty (ls : List (List Char)) : List (List Char) :=
  if ls.getLast? = some [] then ls.dropLast else ls

/-- The pure core of `LogAnalyzer.read_lines`: normalize line endings at the
byte level, decode (`decode` stands for `bytes.decode(encoding,
errors='replace')`, which is a total function — replacement means decoding
never raises), split on LF, drop the single trailing empty element, and
re-attach a newline marker to every line. -/
def readLinesPure (decode : List Nat → List Char) (raw : List Nat) :
    List (List Char) :=
  (dropTrailingEmpty (splitNl (decode (normalizeBytes raw)))).map
    (fun l => l ++ ['\n'])

/-! ## Encoding detection (`LogAnalyzer._detect_encoding`) -/

/-- Python `s.upper()` (ASCII case mapping suffices for encoding names). -/
def upperStr (l : List Char) : List Char := l.map Char.toUpper

/-- `if detected and detected.upper() in ['GB2312', 'GB18030']: detected = 'GBK'`. -/
def mapGbAlias (d : List Char) : List Char :=
  if upperStr d = ("GB2312".toList) ∨ upperStr d = ("GB18030".toList) then
    "GBK".toList
  else d

/-- `common_encodings = ['utf-8', 'gbk', 'gb2312', 'gb18030', 'utf-16']`. -/
def fallbackEncodings : List (List Char) :=
  [("utf-8".toList), ("gbk".toList), ("gb2312".toList), ("gb18030".toList),
   ("utf-16".toList)]

/-- The fallback loop: return the first encoding of the list under which the
byte sample decodes without error (`decodes` abstracts
`raw_data.decode(enc)` succeeding). -/
def firstDecodable (decodes : List Char → Bool) :
    List (List Char) → Option (List Char)
  | [] => none
  | e :: rest => if decodes e then some e else firstDecodable decodes rest

/-- `LogAnalyzer._detect_encoding` (analyze.py).  `cached` is
`self.detected_encoding`, `userEnc` is `self.encoding`; `chardetAvailable`,
`rawNonempty`, `chardetEnc` and `confidence` model `CHARDET_AVAILABLE`,
`bool(raw_data)` and `chardet.detect`'s result (whose `encoding` field may be
`None`, hence the `Option`); `decodes enc` abstracts `raw_data.decode(enc)`
succeeding.  The returned `Option` mirrors the fact that the Python function
returns a string in every branch except the high-confidence branch with a
`None` chardet encoding, where it returns `None`. -/
def detectEncoding (cached userEnc : Option (List Char))
    (chardetAvailable rawNonempty : Bool) (chardetEnc : Option (List Char))
    (confidence : ℚ) (decodes : List Char → Bool) : Option (List Char) :=
  match cached with
  | some c => some c
  | none =>
    match userEnc with
    | some e => some e
    | none =>
      let fallback : Option (List Char) :=
        match firstDecodable decodes fallbackEncodings with
        | some e => some e
        | none => some ("utf-8".toList)
      if chardetAvailable && rawNonempty then
        if (7 : ℚ) / 10 < confidence then
          match chardetEnc with
          | some d => some (mapGbAlias d)
          | none => none
        else fallback
      else fallback

/-! ## Report generation

The location regex
`\[(ERROR|WARNING)\]\s+([A-Za-z]:[\\/].*?\.java):\[(\d+)[,:](\d+)\]` of
`generate_bug_report` / `_analyze_error` is embedded as an explicit
leftmost-match search with lazy `.*?` semantics. -/

def isAsciiAlpha (c : Char) : Bool :=
  ('A' ≤ c && c ≤ 'Z') || ('a' ≤ c && c ≤ 'z')

def isAsciiDigit (c : Char) : Bool :=
  '0' ≤ c && c ≤ '9'

/-- `\[(ERROR|WARNING)\]` at the current position; returns the rest. -/
def matchTag (s : List Char) : Option (List Char) :=
  if ("[ERROR]".toList).isPrefixOf s then some (s.drop 7)
  else if ("[WARNING]".toList).isPrefixOf s then some (s.drop 9)
  else none

/-- `\s+` at the current position (greedy; the next pattern element is a
non-space letter, so maximal munch is equivalent). -/
def matchSpaces1 : List Char → Option (List Char)
  | [] => none
  | c :: cs => if isPySpace c then some (cs.dropWhile isPySpace) else none

/-- `\d+` at the current position; returns the digits and the rest. -/
def matchDigits1 (s : List Char) : Option (List Char × List Char) :=
  let ds := s.takeWhile isAsciiDigit
  if ds.isEmpty then none else some (ds, s.dropWhile isAsciiDigit)

/-- `:\[(\d+)[,:](\d+)\]` at the current position; returns the two digit
groups. -/
def matchLineCol (s : List Char) : Option (List Char × List Char) :=
  match s with
  | ':' :: '[' :: r =>
    match matchDigits1 r with
    | some (d1, r1) =>
      match r1 with
      | c :: r2 =>
        if c = ',' ∨ c = ':' then
          match matchDigits1 r2 with
          | some (d2, r3) =>
            match r3 with
            | ']' :: _ => some (d1, d2)
            | _ => none
          | none => none
        else none
      | [] => none
    | none => none
  | _ => none

/-- `.*?\.java:\[(\d+)[,:](\d+)\]` with lazy `.*?`: at each position first try
to finish the pattern with `.java` plus line/column; on failure consume one
more non-newline character (`.` does not match `\n`).  `acc` holds the
consumed characters in reverse; on success the full group-2 middle part and
the two digit groups are returned. -/
def matchTail : List Char → List Char → Option (List Char × List Char × List Char)
  | _, [] => none
  | acc, c :: cs =>
    if (".java".toList).isPrefixOf (c :: cs) then
      match matchLineCol ((c :: cs).drop 5) with
      | some (d1, d2) => some (acc.reverse ++ (".java".toList), d1, d2)
      | none => if c ≠ '\n' then matchTail (c :: acc) cs else none
    else if c ≠ '\n' then matchTail (c :: acc) cs else none

/-- `[A-Za-z]:[\\/].*?\.java:\[(\d+)[,:](\d+)\]` at the current position;
returns (group 2 path, line digits, column digits). -/
def matchDrivePath (s : List Char) : Option (List Char × List Char × List Char) :=
  match s with
  | a :: ':' :: sl :: rest =>
    if isAsciiAlpha a && (sl == '/' || sl == '\\') then
      match matchTail [] rest with
      | some (mid, d1, d2) => some (a :: ':' :: sl :: mid, d1, d2)
      | none => none
    else none
  | _ => none

/-- `re.search` of the full location pattern: leftmost starting position at
which the whole pattern matches; returns (file path, line, column) groups. -/
def fileSearch : List Char → Option (List Char × List Char × List Char)
  | [] => none
  | c :: cs =>
    let here :=
      match matchTag (c :: cs) with
      | some r1 =>
        match matchSpaces1 r1 with
        | some r2 => matchDrivePath r2
        | none => none
      | none => none
    match here with
    | some r => some r
    | none => fileSearch cs

/-- `Path(p).name` for the drive-letter paths the regex matches (Windows
semantics: both `/` and `\` separate components). -/
def pathName (p : List Char) : List Char :=
  (p.reverse.takeWhile (fun c => c != '/' && c != '\\')).reverse

/-- Python `s.lower()` (ASCII suffices for the probed keywords). -/
def lowerStr (l : List Char) : List Char := l.map Char.toLower

/-- `content = error.content + "\n" + "\n".join(error.context_lines)` as built
by `generate_bug_report` and `_analyze_error`. -/
def bugContent (e : ErrorEntry) : List Char :=
  e.content ++ '\n' :: List.intercalate ("\n".toList) e.context_lines

/-- The failure-type if/elif chain of `generate_bug_report`. -/
def failureTypeOf (content : List Char) : List Char :=
  if containsSub ("cannot find symbol".toList) content then
    "SymbolNotFound".toList
  else if containsSub ("package".toList) content &&
      containsSub ("does not exist".toList) content then
    "PackageNotFound".toList
  else if containsSub ("compilation failure".toList) (lowerStr content) then
    "CompilationError".toList
  else if containsSub ("Exception".toList) content then
    "RuntimeException".toList
  else "Unknown".toList

/-- The location extraction of `generate_bug_report`:
`f"{Path(...).name}:[{g3},{g4}]"` on a regex match, else `"Unknown"`. -/
def locationOf (content : List Char) : List Char :=
  match fileSearch content with
  | some (p, d1, d2) =>
    pathName p ++ (":[".toList) ++ d1 ++ (",".toList) ++ d2 ++ ("]".toList)
  | none => "Unknown".toList

/-- `LogAnalyzer._infer_root_cause` (analyze.py). -/
def inferRootCause (e : ErrorEntry) : List Char :=
  let content := lowerStr e.content
  if containsSub ("cannot find symbol".toList) content then
    "缺少类/包导入或拼写错误".toList
  else if containsSub ("package".toList) content then
    "Maven 依赖缺失".toList
  else "代码语法错误或逻辑异常".toList

/-- `key_trace = error.content (+ "\n" + join of first 5 context lines)`. -/
def keyTraceOf (e : ErrorEntry) : List Char :=
  if e.context_lines.isEmpty then e.content
  else e.content ++ '\n' :: List.intercalate ("\n".toList) (e.context_lines.take 5)

/-- `LogAnalyzer.generate_bug_report` (analyze.py): short-circuits to the fixed
"no errors found" message on an empty error list, otherwise renders the fixed
four-field template from the first entry. -/
def generateBugReport (errors : List ErrorEntry) : List Char :=
  match errors with
  | [] => "[OK] 未发现错误！".toList
  | e :: _ =>
    let content := bugContent e
    ("\n> **[Bug Report]**\n> * **Failure Type**: ".toList) ++
      failureTypeOf content ++
      ("\n> * **Location**: ".toList) ++ locationOf content ++
      ("\n> * **Key Trace**:\n> ```text\n".toList) ++ keyTraceOf e ++
      ("\n> ```\n> * **Root Cause**: ".toList) ++ inferRootCause e ++
      ("\n".toList)

/-- Decimal rendering of a number interpolated by an f-string. -/
def natStr (n : Nat) : List Char := (toString n).toList

/-- `"=" * 80` and friends. -/
def repChar (n : Nat) (c : Char) : List Char := List.replicate n c

/-- `LogAnalyzer._analyze_error` (analyze.py). -/
def analyzeErrorLines (e : ErrorEntry) : List (List Char) :=
  let content := bugContent e
  let a1 : List (List Char) :=
    if containsSub ("cannot find symbol".toList) content then
      [("[X] 错误类型: 符号未找到".toList),
       ("[*] 修复建议: 检查 import、拼写或依赖".toList)]
    else if containsSub ("package".toList) content &&
        containsSub ("does not exist".toList) content then
      [("[X] 错误类型: 包不存在".toList), ("[*] 修复建议: 检查 Maven 依赖".toList)]
    else if containsSub ("NullPointerException".toList) content then
      [("[X] 错误类型: 空指针异常".toList)]
    else if containsSub ("incompatible types".toList) content then
      [("[X] 错误类型: 类型不匹配".toList)]
    else []
  let a2 : List (List Char) :=
    match fileSearch content with
    | some (p, d1, d2) =>
      [("[*] 位置: ".toList) ++ pathName p ++ (":[".toList) ++ d1 ++
        (",".toList) ++ d2 ++ ("]".toList)]
    | none => []
  a1 ++ a2

/-- One per-error section of `generate_report` (analyze.py). -/
def reportEntrySection (idx : Nat) (e : ErrorEntry) : List (List Char) :=
  [("## 错误 #".toList) ++ natStr idx ++ (": ".toList) ++ e.error_type,
   ("位置: 第 ".toList) ++ natStr e.line_number ++ (" 行".toList),
   repChar 80 '-',
   ("### 错误内容:".toList),
   e.content,
   []] ++
  (if e.context_lines.isEmpty then []
   else ("### 上下文:".toList) :: e.context_lines.take 10 ++ [[]]) ++
  (let analysis := analyzeErrorLines e
   if analysis.isEmpty then []
   else ("### 错误分析:".toList) :: analysis ++ [[]]) ++
  [repChar 80 '=', []]

/-- `LogAnalyzer.generate_report` (analyze.py), with the wall-clock timestamp
passed in explicitly (`now` stands for `datetime.now().strftime(...)`); the
optional save-to-file side effect is outside the returned value. -/
def generateReport (logPath : List Char) (detectedEncoding : Option (List Char))
    (now : List Char) (errors : List ErrorEntry) : List Char :=
  if errors.isEmpty then "[OK] 未发现错误！".toList
  else
    let headerLines : List (List Char) :=
      [repChar 80 '=',
       ("错误日志分析报告".toList),
       ("日志文件: ".toList) ++ logPath,
       ("文件编码: ".toList) ++
         (match detectedEncoding with
          | some e => e
          | none => "未检测".toList),
       ("分析时间: ".toList) ++ now,
       ("发现错误: ".toList) ++ natStr errors.length ++ (" 个".toList),
       repChar 80 '=',
       []]
    let body :=
      (errors.enum.map (fun p => reportEntrySection (p.1 + 1) p.2)).flatten
    List.intercalate ("\n".toList) (headerLines ++ body)

/-! ## Concrete inputs for the scenario claims -/

/-- Total decode used for concrete ASCII inputs (UTF-8 decoding restricted to
ASCII byte sequences, where it is the identity on code points). -/
def decodeAscii (bs : List Nat) : List Char := bs.map Char.ofNat

/-- The byte content of an ASCII log file. -/
def encodeAscii (s : String) : List Nat := s.toList.map Char.toNat

/-- The C1 scenario input file: exactly one `[ERROR]` line followed by a blank
line. -/
def c1Bytes : List Nat :=
  encodeAscii ("[ERROR] foo/Bar.java:[10,5] cannot find symbol\n\n")

/-- The line list `read_lines` produces for the C1 scenario file. -/
def c1Lines : List (List Char) :=
  [("[ERROR] foo/Bar.java:[10,5] cannot find symbol\n".toList),
   ("\n".toList)]

/-! ## Helper lemmas -/

theorem replaceCR_no_cr (l : List Nat) : ∀ b ∈ replaceCR l, b ≠ 13 := by
  intro b hb
  simp only [replaceCR, List.mem_map] at hb
  obtain ⟨a, -, rfl⟩ := hb
  by_cases h : a = 13 <;> simp [h]

theorem replaceCRLF_of_no_cr : ∀ l : List Nat, (∀ b ∈ l, b ≠ 13) → replaceCRLF l = l := by
  intro l
  induction l using replaceCRLF.induct with
  | case1 => intro _; rfl
  | case2 b => intro _; rfl
  | case3 b c rest h ih =>
    intro hmem
    exact absurd (h.1) (hmem b (by simp))
  | case4 b c rest h ih =>
    intro hmem
    simp only [replaceCRLF, if_neg h]
    rw [ih (fun x hx => hmem x (List.mem_cons_of_mem b hx))]

theorem replaceCR_of_no_cr (l : List Nat) (h : ∀ b ∈ l, b ≠ 13) : replaceCR l = l := by
  simp only [replaceCR]
  rw [List.map_congr_left (fun a ha => by simp [h a ha] : ∀ a ∈ l, _ = id a)]
  exact List.map_id l

theorem splitNl_ne_nil (t : List Char) : splitNl t ≠ [] := by
  induction t with
  | nil => simp [splitNl]
  | cons c cs ih =>
    simp only [splitNl]
    split
    · simp
    · cases h : splitNl cs <;> simp

theorem splitNl_append_newline (t : List Char) :
    splitNl (t ++ ['\n']) = splitNl t ++ [[]] := by
  induction t with
  | nil => rfl
  | cons c cs ih =>
    by_cases hc : c = '\n'
    · subst hc
      simp [splitNl, ih]
    · obtain ⟨t', ts', hts⟩ : ∃ t' ts', splitNl cs = t' :: ts' := by
        cases h : splitNl cs with
        | nil => exact absurd h (splitNl_ne_nil cs)
        | cons a b => exact ⟨a, b, rfl⟩
      simp [splitNl, hc, ih, hts]

theorem splitNl_getLast_empty :
    ∀ t : List Char, (splitNl t).getLast? = some [] →
      t = [] ∨ t.getLast? = some '\n' := by
  intro t
  induction t with
  | nil => intro _; exact Or.inl rfl
  | cons c cs ih =>
    intro h
    by_cases hc : c = '\n'
    · subst hc
      obtain ⟨d, ds, hds⟩ : ∃ d ds, splitNl cs = d :: ds := by
        cases hcase : splitNl cs with
        | nil => exact absurd hcase (splitNl_ne_nil cs)
        | cons a b => exact ⟨a, b, rfl⟩
      have h' : (splitNl cs).getLast? = some [] := by
        simp only [splitNl, hds] at h
        simp at h
        rw [hds]
        exact h
      rcases ih h' with h1 | h2
      · subst h1
        exact Or.inr rfl
      · right
        have hne : cs ≠ [] := by
          intro hcs
          subst hcs
          simp at h2
        obtain ⟨x, xs, rfl⟩ : ∃ x xs, cs = x :: xs := by
          cases cs with
          | nil => exact absurd rfl hne
          | cons x xs => exact ⟨x, xs, rfl⟩
        rw [List.getLast?_cons_cons]
        exact h2
    · obtain ⟨t', ts', hts⟩ : ∃ t' ts', splitNl cs = t' :: ts' := by
        cases hcase : splitNl cs with
        | nil => exact absurd hcase (splitNl_ne_nil cs)
        | cons a b => exact ⟨a, b, rfl⟩
      simp only [splitNl, hts] at h
      rw [if_neg hc] at h
      cases ts' with
      | nil => simp at h
      | cons u us =>
        rw [List.getLast?_cons_cons] at h
        have h' : (splitNl cs).getLast? = some [] := by
          rw [hts, List.getLast?_cons_cons]
          exact h
        rcases ih h' with h1 | h2
        · exact absurd (h1 ▸ hts) (by simp [splitNl])
        · right
          have hne : cs ≠ [] := by
            intro hcs
            subst hcs
            simp at h2
          obtain ⟨x, xs, rfl⟩ : ∃ x xs, cs = x :: xs := by
            cases cs with
            | nil => exact absurd rfl hne
            | cons x xs => exact ⟨x, xs, rfl⟩
          rw [List.getLast?_cons_cons]
          exact h2

theorem extractContextAux_oob (lines : List (List Char)) (startIdx i fuel : Nat)
    (h1 : ¬ i < lines.length) :
    extractContextAux lines startIdx i (fuel + 1) = ([], []) := by
  simp [extractContextAux, h1]

theorem extractContextAux_fst_stop (lines : List (List Char)) (startIdx i fuel : Nat)
    (h1 : i < lines.length)
    (h2 : isBlank (rstrip (lines.getD i [])) = true ∨
      (identifyErrorType (rstrip (lines.getD i [])) ≠ [] ∧ startIdx + 1 < i)) :
    (extractContextAux lines startIdx i (fuel + 1)).1 = [rstrip (lines.getD i [])] := by
  simp only [extractContextAux]
  rw [if_pos h1]
  rcases h2 with h2 | h2
  · rw [if_pos h2]
  · by_cases hb : isBlank (rstrip (lines.getD i [])) = true
    · rw [if_pos hb]
    · rw [if_neg hb, if_pos h2]

theorem extractContextAux_fst_cons (lines : List (List Char)) (startIdx i fuel : Nat)
    (h1 : i < lines.length)
    (h2 : isBlank (rstrip (lines.getD i [])) = false)
    (h3 : ¬(identifyErrorType (rstrip (lines.getD i [])) ≠ [] ∧ startIdx + 1 < i)) :
    (extractContextAux lines startIdx i (fuel + 1)).1 =
      rstrip (lines.getD i []) :: (extractContextAux lines startIdx (i + 1) fuel).1 := by
  simp only [extractContextAux]
  rw [if_pos h1, if_neg (by rw [h2]; simp), if_neg h3]

theorem extractContextAux_length (lines : List (List Char)) (startIdx : Nat) :
    ∀ fuel i, ((extractContextAux lines startIdx i fuel).1).length ≤ fuel := by
  intro fuel
  induction fuel with
  | zero => intro i; simp [extractContextAux]
  | succ n ih =>
    intro i
    by_cases h1 : i < lines.length
    · cases hb : isBlank (rstrip (lines.getD i [])) with
      | true =>
        rw [extractContextAux_fst_stop lines startIdx i n h1 (Or.inl hb)]
        simp
      | false =>
        by_cases h3 : identifyErrorType (rstrip (lines.getD i [])) ≠ [] ∧ startIdx + 1 < i
        · rw [extractContextAux_fst_stop lines startIdx i n h1 (Or.inr h3)]
          simp
        · rw [extractContextAux_fst_cons lines startIdx i n h1 hb h3]
          simpa using ih (i + 1)
    · rw [extractContextAux_oob lines startIdx i n h1]
      simp

theorem extractContextAux_getD (lines : List (List Char)) (startIdx : Nat) :
    ∀ fuel i j, j < ((extractContextAux lines startIdx i fuel).1).length →
      ((extractContextAux lines startIdx i fuel).1).getD j [] =
        rstrip (lines.getD (i + j) []) := by
  intro fuel
  induction fuel with
  | zero => intro i j h; simp [extractContextAux] at h
  | succ n ih =>
    intro i j h
    by_cases h1 : i < lines.length
    · cases hb : isBlank (rstrip (lines.getD i [])) with
      | true =>
        rw [extractContextAux_fst_stop lines startIdx i n h1 (Or.inl hb)] at h ⊢
        have hj : j = 0 := by simpa using h
        subst hj
        simp
      | false =>
        by_cases h3 : identifyErrorType (rstrip (lines.getD i [])) ≠ [] ∧ startIdx + 1 < i
        · rw [extractContextAux_fst_stop lines startIdx i n h1 (Or.inr h3)] at h ⊢
          have hj : j = 0 := by simpa using h
          subst hj
          simp
        · rw [extractContextAux_fst_cons lines startIdx i n h1 hb h3] at h ⊢
          cases j with
          | zero => simp
          | succ k =>
            simp only [List.length_cons, Nat.succ_lt_succ_iff] at h
            simp only [List.getD_cons_succ]
            rw [ih (i + 1) k h]
            have hik : i + 1 + k = i + (k + 1) := by omega
            rw [hik]
    · rw [extractContextAux_oob lines startIdx i n h1] at h
      simp at h

theorem extractContextAux_blank (lines : List (List Char)) (startIdx : Nat) :
    ∀ fuel i j, j + 1 < ((extractContextAux lines startIdx i fuel).1).length →
      isBlank (((extractContextAux lines startIdx i fuel).1).getD j []) = false := by
  intro fuel
  induction fuel with
  | zero => intro i j h; simp [extractContextAux] at h
  | succ n ih =>
    intro i j h
    by_cases h1 : i < lines.length
    · cases hb : isBlank (rstrip (lines.getD i [])) with
      | true =>
        rw [extractContextAux_fst_stop lines startIdx i n h1 (Or.inl hb)] at h
        simp at h
      | false =>
        by_cases h3 : identifyErrorType (rstrip (lines.getD i [])) ≠ [] ∧ startIdx + 1 < i
        · rw [extractContextAux_fst_stop lines startIdx i n h1 (Or.inr h3)] at h
          simp at h
        · rw [extractContextAux_fst_cons lines startIdx i n h1 hb h3] at h ⊢
          cases j with
          | zero => simpa using hb
          | succ k =>
            simp only [List.length_cons, Nat.succ_lt_succ_iff] at h
            simp only [List.getD_cons_succ]
            exact ih (i + 1) k h
    · rw [extractContextAux_oob lines startIdx i n h1] at h
      simp at h

theorem extractContextAux_break_last (lines : List (List Char)) (startIdx : Nat) :
    ∀ fuel i j, j < ((extractContextAux lines startIdx i fuel).1).length →
      (isBlank (((extractContextAux lines startIdx i fuel).1).getD j []) = true ∨
        (identifyErrorType (((extractContextAux lines startIdx i fuel).1).getD j []) ≠ [] ∧
          startIdx + 1 < i + j)) →
      j = ((extractContextAux lines startIdx i fuel).1).length - 1 := by
  intro fuel
  induction fuel with
  | zero => intro i j h _; simp [extractContextAux] at h
  | succ n ih =>
    intro i j h hstop
    by_cases h1 : i < lines.length
    · cases hb : isBlank (rstrip (lines.getD i [])) with
      | true =>
        rw [extractContextAux_fst_stop lines startIdx i n h1 (Or.inl hb)] at h ⊢
        simp at h ⊢
        omega
      | false =>
        by_cases h3 : identifyErrorType (rstrip (lines.getD i [])) ≠ [] ∧ startIdx + 1 < i
        · rw [extractContextAux_fst_stop lines startIdx i n h1 (Or.inr h3)] at h ⊢
          simp at h ⊢
          omega
        · rw [extractContextAux_fst_cons lines startIdx i n h1 hb h3] at h hstop ⊢
          cases j with
          | zero =>
            simp only [List.getD_cons_zero] at hstop
            rcases hstop with hcontra | ⟨hid, hlt⟩
            · rw [hb] at hcontra
              exact absurd hcontra (by simp)
            · exact absurd ⟨hid, by omega⟩ h3
          | succ k =>
            simp only [List.length_cons, Nat.succ_lt_succ_iff] at h
            simp only [List.getD_cons_succ] at hstop
            have hk := ih (i + 1) k h (by
              rcases hstop with hbk | ⟨hid, hlt⟩
              · exact Or.inl hbk
              · exact Or.inr ⟨hid, by omega⟩)
            have hpos : 0 < ((extractContextAux lines startIdx (i + 1) n).1).length :=
              Nat.lt_of_le_of_lt (Nat.zero_le k) h
            simp only [List.length_cons]
            omega
    · rw [extractContextAux_oob lines startIdx i n h1] at h
      simp at h

theorem analyzeAux_length_le (maxE ctx : Nat) (lines : List (List Char)) :
    ∀ fuel i errs, errs.length ≤ maxE →
      (analyzeAux maxE ctx lines fuel i errs).length ≤ maxE := by
  intro fuel
  induction fuel with
  | zero => intro i errs h; exact h
  | succ n ih =>
    intro i errs h
    rw [analyzeAux]
    split
    · rename_i hcond
      dsimp only
      split
      · exact ih _ _ (by simp; omega)
      · exact ih _ _ h
    · exact h

theorem analyzeAux_chain (maxE ctx : Nat) (lines : List (List Char)) :
    ∀ fuel i errs,
      errs.Chain' (fun a b => a.line_number < b.line_number) →
      (∀ e ∈ errs, e.line_number ≤ i) →
      (analyzeAux maxE ctx lines fuel i errs).Chain'
        (fun a b => a.line_number < b.line_number) := by
  intro fuel
  induction fuel with
  | zero => intro i errs h _; exact h
  | succ n ih =>
    intro i errs hch hb
    rw [analyzeAux]
    split
    · dsimp only
      split
      · apply ih
        · rw [List.chain'_append]
          refine ⟨hch, List.chain'_singleton _, ?_⟩
          intro x hx y hy
          simp only [List.head?_cons, Option.mem_def, Option.some.injEq] at hy
          subst hy
          have hxe : x ∈ errs := List.mem_of_getLast?_eq_some hx
          have := hb x hxe
          simp only
          omega
        · intro e he
          rcases List.mem_append.1 he with h1 | h2
          · have := hb e h1
            omega
          · simp only [List.mem_singleton] at h2
            subst h2
            simp only
            omega
      · apply ih _ _ hch
        intro e he
        have := hb e he
        omega
    · exact hch

theorem analyzeAux_entries (maxE ctx : Nat) (lines : List (List Char))
    (Q : ErrorEntry → Prop)
    (hQ : ∀ i, Q ⟨i + 1, identifyErrorType (lines.getD i []),
      rstrip (lines.getD i []), (extractContext ctx lines i).1,
      (extractContext ctx lines i).2⟩) :
    ∀ fuel i errs, (∀ e ∈ errs, Q e) →
      ∀ e ∈ analyzeAux maxE ctx lines fuel i errs, Q e := by
  intro fuel
  induction fuel with
  | zero => intro i errs h; exact h
  | succ n ih =>
    intro i errs h
    rw [analyzeAux]
    split
    · dsimp only
      split
      · apply ih
        intro e he
        rcases List.mem_append.1 he with h1 | h2
        · exact h e h1
        · simp only [List.mem_singleton] at h2
          subst h2
          exact hQ i
      · exact ih _ _ h
    · exact h

/-! ## Claim theorems -/

/-- C9: line-ending normalization (CRLF → LF, then CR → LF, at the byte level)
is idempotent — normalizing an already-normalized buffer returns it
unchanged. -/
theorem normalize_idempotent (raw : List Nat) :
    normalizeBytes (normalizeBytes raw) = normalizeBytes raw := by
  unfold normalizeBytes
  rw [replaceCRLF_of_no_cr _ (replaceCR_no_cr _), replaceCR_of_no_cr _ (replaceCR_no_cr _)]

/-- C6: when the scan produced no `ErrorEntry`, both `generate_report` and
`generate_bug_report` return the fixed "no errors found" message, for every
analyzer state (log path, detected encoding, timestamp) with an empty error
list. -/
theorem no_errors_message (logPath : List Char) (enc : Option (List Char))
    (now : List Char) :
    generateReport logPath enc now [] = ("[OK] 未发现错误！".toList) ∧
    generateBugReport [] = ("[OK] 未发现错误！".toList) :=
  ⟨rfl, rfl⟩

/-- C5: the classifier returns at most one of the three tags with fixed
priority — the `[ERROR]` marker yields `ERROR` and beats the
`FAILURE`/`BUILD FAILURE`/`Test.*FAILED` pattern (`FAILURE`), which beats the
`Caused by:` marker (`EXCEPTION`); with no match the empty tag is returned. -/
theorem classify_priority (l : List Char) :
    (mavenErrorMatch l = true → identifyErrorType l = ("ERROR".toList)) ∧
    (mavenErrorMatch l = false → failureMatch l = true →
      identifyErrorType l = ("FAILURE".toList)) ∧
    (mavenErrorMatch l = false → failureMatch l = false → causedByMatch l = true →
      identifyErrorType l = ("EXCEPTION".toList)) ∧
    (mavenErrorMatch l = false → failureMatch l = false → causedByMatch l = false →
      identifyErrorType l = []) ∧
    (identifyErrorType l = ("ERROR".toList) ∨ identifyErrorType l = ("FAILURE".toList) ∨
      identifyErrorType l = ("EXCEPTION".toList) ∨ identifyErrorType l = []) := by
  unfold identifyErrorType
  refine ⟨fun h => by simp [h], fun h1 h2 => by simp [h1, h2],
    fun h1 h2 h3 => by simp [h1, h2, h3], fun h1 h2 h3 => by simp [h1, h2, h3], ?_⟩
  split
  · exact Or.inl rfl
  · split
    · exact Or.inr (Or.inl rfl)
    · split
      · exact Or.inr (Or.inr (Or.inl rfl))
      · exact Or.inr (Or.inr (Or.inr rfl))

/-- Witness for C5 at concrete lines that satisfy several patterns at once:
priority resolves them deterministically. -/
theorem classify_priority_witness :
    identifyErrorType ("[ERROR] BUILD FAILURE Caused by: x".toList) = ("ERROR".toList) ∧
    identifyErrorType ("Caused by: FAILURE".toList) = ("FAILURE".toList) :=
  ⟨(classify_priority _).1 (by decide),
   (classify_priority _).2.1 (by decide) (by decide)⟩

/-- C7: the line reader normalizes CRLF and bare CR to LF at the byte level
before decoding (afterwards no CR byte remains), decodes via a total decode
function (`errors='replace'` never raises), drops the single trailing empty
element a trailing newline creates, and returns lines that each end in a
newline marker. -/
theorem read_lines_contract (decode : List Nat → List Char) (raw : List Nat) :
    (∀ b ∈ normalizeBytes raw, b ≠ 13) ∧
    (∀ l ∈ readLinesPure decode raw, l.getLast? = some '\n') ∧
    (∀ t, decode (normalizeBytes raw) = t ++ ['\n'] →
      (readLinesPure decode raw).length + 1 =
        (splitNl (decode (normalizeBytes raw))).length) ∧
    ((decode (normalizeBytes raw)) ≠ [] →
      (decode (normalizeBytes raw)).getLast? ≠ some '\n' →
      (readLinesPure decode raw).length =
        (splitNl (decode (normalizeBytes raw))).length) := by
  refine ⟨replaceCR_no_cr _, ?_, ?_, ?_⟩
  · intro l hl
    simp only [readLinesPure, List.mem_map] at hl
    obtain ⟨x, -, rfl⟩ := hl
    exact List.getLast?_concat x
  · intro t ht
    rw [readLinesPure, ht, splitNl_append_newline, dropTrailingEmpty,
      if_pos (List.getLast?_concat _), List.dropLast_concat, List.length_map,
      List.length_append]
    simp
  · intro hne hlast
    have h : (splitNl (decode (normalizeBytes raw))).getLast? ≠ some [] := by
      intro hcontra
      rcases splitNl_getLast_empty _ hcontra with h1 | h2
      · exact hne h1
      · exact hlast h2
    rw [readLinesPure, dropTrailingEmpty, if_neg h, List.length_map]

/-- Witness for C7 on a concrete mixed-line-ending file. -/
theorem read_lines_contract_witness :
    (readLinesPure decodeAscii (encodeAscii ("a\r\nb\n"))).length + 1 =
      (splitNl (decodeAscii (normalizeBytes (encodeAscii ("a\r\nb\n"))))).length :=
  (read_lines_contract decodeAscii (encodeAscii ("a\r\nb\n"))).2.2.1
    ("a\nb".toList) (by decide)

/-- C2: for every input line list and every configured maximum, `analyze`
returns at most `max_errors` entries, and the `line_number` fields of
successive entries are strictly increasing. -/
theorem scan_bounded_and_increasing (maxE ctx : Nat) (lines : List (List Char)) :
    (analyze maxE ctx lines).length ≤ maxE ∧
    (analyze maxE ctx lines).Chain' (fun a b => a.line_number < b.line_number) :=
  ⟨analyzeAux_length_le maxE ctx lines lines.length 0 [] (Nat.zero_le _),
   analyzeAux_chain maxE ctx lines lines.length 0 [] List.chain'_nil (by simp)⟩

/-- C3: every `ErrorEntry` produced by a scan with configured window `ctx` has
at most `ctx` context lines; the context elements are the rstripped source
lines directly following the trigger line; and no element other than the last
is blank — the captured context never continues past a blank-line boundary. -/
theorem context_window_bounded (maxE ctx : Nat) (lines : List (List Char))
    (e : ErrorEntry) (he : e ∈ analyze maxE ctx lines) :
    e.context_lines.length ≤ ctx ∧
    (∀ j, j < e.context_lines.length →
      e.context_lines.getD j [] = rstrip (lines.getD (e.line_number + j) [])) ∧
    (∀ j, j + 1 < e.context_lines.length →
      isBlank (e.context_lines.getD j []) = false) := by
  refine analyzeAux_entries maxE ctx lines
    (fun e => e.context_lines.length ≤ ctx ∧
      (∀ j, j < e.context_lines.length →
        e.context_lines.getD j [] = rstrip (lines.getD (e.line_number + j) [])) ∧
      (∀ j, j + 1 < e.context_lines.length →
        isBlank (e.context_lines.getD j []) = false))
    ?_ lines.length 0 [] (by simp) e he
  intro i
  dsimp only
  refine ⟨?_, ?_, ?_⟩
  · exact extractContextAux_length lines i ctx (i + 1)
  · intro j hj
    exact extractContextAux_getD lines i ctx (i + 1) j hj
  · intro j hj
    exact extractContextAux_blank lines i ctx (i + 1) j hj

/-- A three-line log whose single error entry carries a two-element context:
one ordinary line and the terminating blank line. -/
def c3Lines : List (List Char) :=
  [("[ERROR] a\n".toList), ("b\n".toList), ("\n".toList)]

/-- The entry `analyze` produces on `c3Lines`. -/
def c3Entry : ErrorEntry :=
  ⟨1, "ERROR".toList, "[ERROR] a".toList, [("b".toList), []], []⟩

/-- Witness for C3 at the concrete scan of `c3Lines`. -/
theorem context_window_bounded_witness :
    c3Entry.context_lines.length ≤ 20 ∧
    isBlank (c3Entry.context_lines.getD 0 []) = false :=
  ⟨(context_window_bounded 5 20 c3Lines c3Entry (by decide)).1,
   (context_window_bounded 5 20 c3Lines c3Entry (by decide)).2.2 0 (by decide)⟩

/-- C10: when context extraction stops early — on a blank line, or on a line
classifying as a new error at relative position ≥ 1 — the terminating line has
already been appended and is the last element of the context; in particular a
trigger line followed directly by a blank line yields the one-element context
`[""]`, not the empty list. -/
theorem context_stop_line_included (ctx : Nat) (lines : List (List Char))
    (startIdx : Nat) :
    (∀ j, j < ((extractContext ctx lines startIdx).1).length →
      (isBlank (((extractContext ctx lines startIdx).1).getD j []) = true ∨
        (identifyErrorType (((extractContext ctx lines startIdx).1).getD j []) ≠ [] ∧
          1 ≤ j)) →
      j = ((extractContext ctx lines startIdx).1).length - 1) ∧
    extractContext 20 [("[ERROR] x\n".toList), ("\n".toList)] 0 = ([[]], []) := by
  constructor
  · intro j hj hstop
    refine extractContextAux_break_last lines startIdx ctx (startIdx + 1) j hj ?_
    rcases hstop with hb | ⟨hid, hge⟩
    · exact Or.inl hb
    · exact Or.inr ⟨hid, by omega⟩
  · decide

/-- Witness for C10: the blank line of the two-line scenario is the last (and
only) context element. -/
theorem context_stop_line_included_witness :
    (0 : Nat) =
      ((extractContext 20 [("[ERROR] x\n".toList), ("\n".toList)] 0).1).length - 1 :=
  (context_stop_line_included 20 [("[ERROR] x\n".toList), ("\n".toList)] 0).1 0
    (by decide) (Or.inl (by decide))

theorem printRangeAux_inv :
    ∀ n j (marked printed : List Nat), printed.Nodup → (∀ x ∈ printed, x ∈ marked) →
      ((printRangeAux n j marked printed).2.Nodup ∧
        ∀ x ∈ (printRangeAux n j marked printed).2,
          x ∈ (printRangeAux n j marked printed).1) := by
  intro n
  induction n with
  | zero => intro j marked printed h1 h2; exact ⟨h1, h2⟩
  | succ m ih =>
    intro j marked printed h1 h2
    rw [printRangeAux]
    split
    · exact ih _ _ _ h1 h2
    · rename_i hj
      apply ih
      · refine List.Nodup.append h1 (List.nodup_singleton j) ?_
        intro x hx hx2
        simp only [List.mem_singleton] at hx2
        subst hx2
        exact hj (h2 x hx)
      · intro x hx
        rcases List.mem_append.1 hx with h | h
        · exact List.mem_append.2 (Or.inl (h2 x h))
        · exact List.mem_append.2 (Or.inr h)

theorem printRangeAux_marked_subset :
    ∀ n j (marked printed : List Nat) x, x ∈ (printRangeAux n j marked printed).1 →
      x ∈ marked ∨ (j ≤ x ∧ x < j + n) := by
  intro n
  induction n with
  | zero => intro j marked printed x hx; exact Or.inl hx
  | succ m ih =>
    intro j marked printed x hx
    rw [printRangeAux] at hx
    split at hx
    · rcases ih _ _ _ _ hx with h | ⟨h1, h2⟩
      · exact Or.inl h
      · exact Or.inr ⟨by omega, by omega⟩
    · rcases ih _ _ _ _ hx with h | ⟨h1, h2⟩
      · rcases List.mem_append.1 h with h | h
        · exact Or.inl h
        · simp only [List.mem_singleton] at h
          subst h
          exact Or.inr ⟨Nat.le_refl _, by omega⟩
      · exact Or.inr ⟨by omega, by omega⟩

theorem printRange_inv (lo hi : Nat) (marked printed : List Nat)
    (h1 : printed.Nodup) (h2 : ∀ x ∈ printed, x ∈ marked) :
    ((printRange lo hi marked printed).2.Nodup ∧
      ∀ x ∈ (printRange lo hi marked printed).2,
        x ∈ (printRange lo hi marked printed).1) :=
  printRangeAux_inv _ _ _ _ h1 h2

theorem printRange_marked_subset (lo hi : Nat) (marked printed : List Nat) (x : Nat)
    (hx : x ∈ (printRange lo hi marked printed).1) :
    x ∈ marked ∨ (lo ≤ x ∧ x < lo + (hi - lo)) :=
  printRangeAux_marked_subset _ _ _ _ _ hx

theorem grepLoopAux_nodup (ctx maxM : Nat) (kw : List Char)
    (lines : List (List Char)) :
    ∀ fuel i found (marked printed : List Nat), printed.Nodup →
      (∀ x ∈ printed, x ∈ marked) →
      (grepLoopAux ctx maxM kw lines fuel i found marked printed).Nodup := by
  intro fuel
  induction fuel with
  | zero => intro i found marked printed h1 _; exact h1
  | succ n ih =>
    intro i found marked printed h1 h2
    rw [grepLoopAux]
    split
    · split
      · rename_i hcond hmatch
        dsimp only
        have hA := printRange_inv (i - ctx) i marked printed h1 h2
        have him : i ∉ (printRange (i - ctx) i marked printed).1 := by
          intro hmem
          rcases printRange_marked_subset _ _ _ _ _ hmem with h | ⟨hl, hr⟩
          · exact hmatch.2 h
          · omega
        have hp2nodup : ((printRange (i - ctx) i marked printed).2 ++ [i]).Nodup := by
          refine List.Nodup.append hA.1 (List.nodup_singleton i) ?_
          intro x hx hx2
          simp only [List.mem_singleton] at hx2
          subst hx2
          exact him (hA.2 x hx)
        have hp2sub : ∀ x ∈ (printRange (i - ctx) i marked printed).2 ++ [i],
            x ∈ (printRange (i - ctx) i marked printed).1 ++ [i] := by
          intro x hx
          rcases List.mem_append.1 hx with h | h
          · exact List.mem_append.2 (Or.inl (hA.2 x h))
          · exact List.mem_append.2 (Or.inr h)
        have hB := printRange_inv (i + 1) (min lines.length (i + ctx + 1)) _ _
          hp2nodup hp2sub
        exact ih _ _ _ _ hB.1 hB.2
      · exact ih _ _ _ _ h1 h2
    · exact h1

/-- C4: grep mode prints each source line index at most once across all
printed windows, for every line list, keyword, context size and match cap,
even when the symmetric windows of successive matches overlap. -/
theorem grep_no_duplicate_lines (ctx maxM : Nat) (kw : List Char)
    (lines : List (List Char)) :
    (grepSearch ctx maxM kw lines).Nodup :=
  grepLoopAux_nodup ctx maxM kw lines lines.length 0 0 [] [] List.nodup_nil
    (by simp)

theorem firstDecodable_first (decodes : List Char → Bool) :
    ∀ (L : List (List Char)) k, k < L.length → decodes (L.getD k []) = true →
      (∀ m, m < k → decodes (L.getD m []) = false) →
      firstDecodable decodes L = some (L.getD k []) := by
  intro L
  induction L with
  | nil => intro k hk; simp at hk
  | cons e rest ih =>
    intro k hk hdec hprev
    cases k with
    | zero =>
      simp only [List.getD_cons_zero] at hdec ⊢
      simp [firstDecodable, hdec]
    | succ m =>
      have h0 : decodes e = false := by simpa using hprev 0 (Nat.succ_pos m)
      simp only [firstDecodable, List.getD_cons_succ]
      rw [if_neg (by simp [h0])]
      refine ih m (by simpa using hk) (by simpa using hdec) ?_
      intro m' hm'
      simpa using hprev (m' + 1) (by omega)

theorem firstDecodable_none (decodes : List Char → Bool) :
    ∀ L : List (List Char), (∀ e ∈ L, decodes e = false) →
      firstDecodable decodes L = none := by
  intro L
  induction L with
  | nil => intro _; rfl
  | cons e rest ih =>
    intro h
    simp only [firstDecodable]
    rw [if_neg (by simp [h e (by simp)])]
    exact ih (fun x hx => h x (by simp [hx]))

/-- C8: the encoding detector (fresh instance, empty cache) uses a
caller-supplied explicit encoding unconditionally; with statistical confidence
above 0.7 it returns the detector's result after mapping GB2312 and GB18030
onto GBK; otherwise it returns the first encoding of the fixed fallback list
that decodes the byte sample; and when every fallback fails it returns the
utf-8 default. -/
theorem detect_encoding_spec (chardetEnc : Option (List Char))
    (avail nonempty : Bool) (confidence : ℚ) (decodes : List Char → Bool) :
    (∀ e, detectEncoding none (some e) avail nonempty chardetEnc confidence
      decodes = some e) ∧
    (avail = true → nonempty = true → (7 : ℚ) / 10 < confidence →
      ∀ d, chardetEnc = some d →
        detectEncoding none none avail nonempty chardetEnc confidence decodes =
          some (mapGbAlias d)) ∧
    ((avail = false ∨ nonempty = false ∨ confidence ≤ (7 : ℚ) / 10) →
      ∀ k, k < fallbackEncodings.length →
        decodes (fallbackEncodings.getD k []) = true →
        (∀ m, m < k → decodes (fallbackEncodings.getD m []) = false) →
        detectEncoding none none avail nonempty chardetEnc confidence decodes =
          some (fallbackEncodings.getD k [])) ∧
    ((avail = false ∨ nonempty = false ∨ confidence ≤ (7 : ℚ) / 10) →
      (∀ e ∈ fallbackEncodings, decodes e = false) →
      detectEncoding none none avail nonempty chardetEnc confidence decodes =
        some ("utf-8".toList)) := by
  refine ⟨fun e => rfl, ?_, ?_, ?_⟩
  · intro ha hn hc d hd
    subst hd
    subst ha
    subst hn
    simp [detectEncoding, hc]
  · intro hcase k hk hdec hprev
    have hfb := firstDecodable_first decodes fallbackEncodings k hk hdec hprev
    rcases hcase with h | h | h
    · subst h
      simp [detectEncoding, hfb]
    · subst h
      simp [detectEncoding, hfb]
    · by_cases hav : (avail && nonempty) = true
      · simp [detectEncoding, hav, not_lt.mpr h, hfb]
      · simp only [Bool.not_eq_true] at hav
        simp [detectEncoding, hav, hfb]
  · intro hcase hall
    have hfb := firstDecodable_none decodes fallbackEncodings hall
    rcases hcase with h | h | h
    · subst h
      simp [detectEncoding, hfb]
    · subst h
      simp [detectEncoding, hfb]
    · by_cases hav : (avail && nonempty) = true
      · simp [detectEncoding, hav, not_lt.mpr h, hfb]
      · simp only [Bool.not_eq_true] at hav
        simp [detectEncoding, hav, hfb]

/-- Witness for C8 at concrete detector outcomes: explicit user encoding,
high-confidence GB2312 (mapped to GBK), and total fallback failure (utf-8). -/
theorem detect_encoding_spec_witness :
    detectEncoding none (some ("gbk".toList)) true true none 0 (fun _ => false) =
      some ("gbk".toList) ∧
    detectEncoding none none true true (some ("GB2312".toList)) 1
      (fun _ => false) = some ("GBK".toList) ∧
    detectEncoding none none false false none 0 (fun _ => false) =
      some ("utf-8".toList) := by
  refine ⟨(detect_encoding_spec none true true 0 (fun _ => false)).1 _, ?_, ?_⟩
  · have h := (detect_encoding_spec (some ("GB2312".toList)) true true 1
      (fun _ => false)).2.1 rfl rfl (by norm_num) ("GB2312".toList) rfl
    have hmap : mapGbAlias ("GB2312".toList) = ("GBK".toList) := by decide
    rw [hmap] at h
    exact h
  · exact (detect_encoding_spec none false false 0 (fun _ => false)).2.2.2
      (Or.inl rfl) (fun e _ => rfl)

/-- C1 as stated fails on the code: on the scenario input the single entry's
`context_lines` is `[""]`, not the empty list (the blank line is appended
before the loop breaks), and the condensed report's Location field is
`Unknown`, not `Bar.java:[10,5]` (the location regex only matches drive-letter
paths such as `C:/...`, and `foo/Bar.java` has none). -/
theorem scenario_bug_report_counterexample :
    ¬ ((analyze 5 20 c1Lines).map ErrorEntry.context_lines = [[]] ∧
      containsSub ("**Location**: Bar.java:[10,5]".toList)
        (generateBugReport (analyze 5 20 c1Lines)) = true) := by
  decide

/-- C1 amended: for the scenario input (one `[ERROR] foo/Bar.java:[10,5]
cannot find symbol` line followed by a blank line), `read_lines` yields the two
scenario lines, `analyze` produces exactly one entry with `error_type = ERROR`
and `context_lines = [""]`, and the condensed bug report has
`Failure Type = SymbolNotFound` and `Location = Unknown`. -/
theorem scenario_bug_report_amended :
    readLinesPure decodeAscii c1Bytes = c1Lines ∧
    analyze 5 20 c1Lines =
      [⟨1, "ERROR".toList,
        ("[ERROR] foo/Bar.java:[10,5] cannot find symbol".toList), [[]], []⟩] ∧
    containsSub ("**Failure Type**: SymbolNotFound".toList)
      (generateBugReport (analyze 5 20 c1Lines)) = true ∧
    containsSub ("**Location**: Unknown".toList)
      (generateBugReport (analyze 5 20 c1Lines)) = true := by
  exact ⟨by decide, by decide, by decide, by decide⟩

end LogAnalyzer
